import Mathlib

/-!
Verification model of the `jsonable` C++ library (whyjp/jsonable).

The embedding follows `JsonableBase` (the inline RapidJSON variant, the one
the rest of the repository builds on): a single mutable JSON document plus a
context stack of pointers into that document, and the typed get/set/array
accessors and begin/end structural operations layered on top.

Modelling decisions, each noted again at the definition it concerns:
* RapidJSON values are modelled by the inductive `JValue`; numbers keep the
  distinction RapidJSON keeps between integer-flagged and double-flagged
  numbers (`JNum`), because the accessors dispatch on those flags.  Doubles
  are modelled exactly by rationals; the only operations the library performs
  on them are store and copy, which are exact on IEEE doubles as well.
* A context frame's `rapidjson::Value*` pointer is modelled by a `Path` from
  the document root.  A pointer produced as `&obj[key]` designates the first
  member named `key`, and the library only ever appends members / elements or
  overwrites a member's value in place, so the path `field key` (resolved to
  the first match) and `idx i` steps denote the same value the pointer does
  for the whole life of the frame.
* Calls whose C++ behaviour is an assertion failure / undefined behaviour
  (null key passed to a root-level write, a structural operation through a
  frame whose referenced value has the wrong shape) are modelled by `Option`:
  `none` means the call has no defined result.  No theorem relies on a value
  produced on such a path.
-/

namespace Jsonable

/-! ## Numbers

RapidJSON stores a number together with kind flags.  For every number the
library can build (the `Value(int64_t)`, `Value(uint32_t)`, `Value(uint64_t)`,
`Value(double)` constructors and the parser), the flag set is a function of
the stored mathematical value: an integer-flagged number with value `v` has
Int64 flag iff `-2^63 ≤ v < 2^63`, Uint64 flag iff `0 ≤ v < 2^64`, Int flag
iff `-2^31 ≤ v < 2^31`, Uint flag iff `0 ≤ v < 2^32`; a double-flagged number
has none of the integer flags. -/

inductive JNum where
  | int (v : Int)
  | dbl (q : Rat)

/-- Int64 flag: set on an integer-flagged number in signed 64-bit range. -/
def JNum.isInt64 : JNum → Bool
  | .int v => decide (-9223372036854775808 ≤ v ∧ v < 9223372036854775808)
  | .dbl _ => false

/-- Uint64 flag: set on an integer-flagged number in unsigned 64-bit range. -/
def JNum.isUint64 : JNum → Bool
  | .int v => decide (0 ≤ v ∧ v < 18446744073709551616)
  | .dbl _ => false

/-- Int flag: set on an integer-flagged number in signed 32-bit range. -/
def JNum.isInt32 : JNum → Bool
  | .int v => decide (-2147483648 ≤ v ∧ v < 2147483648)
  | .dbl _ => false

/-- Uint flag: set on an integer-flagged number in unsigned 32-bit range. -/
def JNum.isUint32 : JNum → Bool
  | .int v => decide (0 ≤ v ∧ v < 4294967296)
  | .dbl _ => false

/-- Double flag. -/
def JNum.isDbl : JNum → Bool
  | .int _ => false
  | .dbl _ => true

/-- Reduce an integer to the signed 64-bit value with the same low 64 bits
(the value `GetInt64` reads from the union). -/
def wrapInt64 (v : Int) : Int :=
  (v + 9223372036854775808) % 18446744073709551616 - 9223372036854775808

/-- `GetInt64`: the 64-bit union field read as a signed integer.  RapidJSON
asserts the Int64 flag; for a double-flagged number the release-mode read is
the double's bit pattern, which no caller in the library relies on — modelled
as 0, and no theorem depends on that branch. -/
def JNum.i64 : JNum → Int
  | .int v => wrapInt64 v
  | .dbl _ => 0

/-- `GetUint64`: the 64-bit union field read as an unsigned integer.
RapidJSON asserts the Uint64 flag; the double-flagged branch is modelled as 0
and no theorem depends on it. -/
def JNum.u64 : JNum → Int
  | .int v => if 0 ≤ v then v else v + 18446744073709551616
  | .dbl _ => 0

/-- `GetDouble`: a double-flagged number is returned as stored, an
integer-flagged one is converted.  The conversion is modelled exactly; IEEE
rounding of integers beyond 2^53 is not modelled, and no theorem evaluates
this branch there. -/
def JNum.toDbl : JNum → Rat
  | .int v => (v : Rat)
  | .dbl q => q

/-- Truncation toward zero, the behaviour of `static_cast<int64_t>(double)`
inside the representable range. -/
def ratTrunc (q : Rat) : Int := Int.tdiv q.num (q.den : Int)

/-! ## JSON values -/

inductive JValue where
  | null
  | bool (b : Bool)
  | num (n : JNum)
  | str (s : String)
  | arr (elems : List JValue)
  | obj (members : List (String × JValue))

/-- `IsNumber`. -/
def JValue.isNum : JValue → Bool
  | .num _ => true
  | _ => false

/-- Upsert into a RapidJSON object: `if (HasMember(key)) obj[key] = v; else
AddMember(key, v)`.  `obj[key] = v` assigns through the *first* member named
`key`; `AddMember` appends unconditionally. -/
def setMember : List (String × JValue) → String → JValue → List (String × JValue)
  | [], k, v => [(k, v)]
  | (k', v') :: ms, k, v =>
      if k' = k then (k', v) :: ms else (k', v') :: setMember ms k v

/-! ## Paths: the model of `rapidjson::Value*` pointers held by context
frames.  `field k` is a pointer obtained as `&obj[k]` (first member named
`k`); `idx i` is a pointer obtained as `&arr[i]`. -/

inductive PathStep where
  | field (k : String)
  | idx (i : Nat)

abbrev Path := List PathStep

/-- Follow a path from a value down to the designated sub-value. -/
def resolve : Path → JValue → Option JValue
  | [], v => some v
  | .field k :: p, .obj ms => (List.lookup k ms).bind (resolve p)
  | .idx i :: p, .arr es => es[i]?.bind (resolve p)
  | _, _ => none

/-- Apply `f` to the value of the first member named `k`; `none` when no such
member exists or `f` is undefined there. -/
def updateMemberFirst : List (String × JValue) → String →
    (JValue → Option JValue) → Option (List (String × JValue))
  | [], _, _ => none
  | (k', v') :: ms, k, f =>
      if k' = k then (f v').map fun v'' => (k', v'') :: ms
      else (updateMemberFirst ms k f).map fun ms' => (k', v') :: ms'

/-- Mutate the sub-value a path designates.  `none` when the path dangles. -/
def updateAt : Path → (JValue → JValue) → JValue → Option JValue
  | [], f, v => some (f v)
  | .field k :: p, f, .obj ms =>
      (updateMemberFirst ms k (updateAt p f)).map fun ms' => .obj ms'
  | .idx i :: p, f, .arr es =>
      es[i]?.bind fun v => (updateAt p f v).map fun v' => .arr (es.set i v')
  | _, _, _ => none

/-! ## Façade state: one document plus the context stack.
`JsonContext { rapidjson::Value* current; bool isArray; std::string key; }`,
held in a vector whose back is the top; modelled as a list whose head is the
top. -/

structure Frame where
  path : Path
  isArr : Bool
  key : String

structure JState where
  document : JValue
  stack : List Frame

/-- The state of a freshly constructed façade: `document_.SetObject()`, empty
context stack. -/
def freshState : JState := ⟨.obj [], []⟩

/-- `ensureObject`: reset the document to an empty object unless it already
is an object. -/
def ensureObject : JValue → JValue
  | .obj ms => .obj ms
  | _ => .obj []

/-! ## Typed scalar writes

The six setters `setString`/`setInt64`/`setDouble`/`setBool`/`setUInt32`/
`setUInt64` share one body verbatim, differing only in the `rapidjson::Value`
they construct; `setValueRaw` is that shared body.  A null key is `none`.
`none` results mark the undefined calls: a null key reaching a root-level
`rapidjson::Value(key, allocator)`, or a context frame whose referenced value
does not have the shape its mode implies (RapidJSON assertions). -/

def setValueRaw (s : JState) (key : Option String) (v : JValue) : Option JState :=
  match s.stack with
  | [] =>
      match key with
      | none => none
      | some k =>
          match ensureObject s.document with
          | .obj ms => some ⟨.obj (setMember ms k v), []⟩
          | _ => none
  | fr :: _ =>
      match resolve fr.path s.document with
      | none => none
      | some cur =>
          if fr.isArr then
            match cur with
            | .arr es =>
                (updateAt fr.path (fun _ => .arr (es ++ [v])) s.document).map
                  fun d => ⟨d, s.stack⟩
            | _ => none
          else
            match key with
            | none => some s
            | some k =>
                if k.length > 0 then
                  match cur with
                  | .obj ms =>
                      (updateAt fr.path (fun _ => .obj (setMember ms k v))
                          s.document).map fun d => ⟨d, s.stack⟩
                  | _ => none
                else some s

def setString (s : JState) (key : Option String) (v : String) : Option JState :=
  setValueRaw s key (.str v)

def setInt64 (s : JState) (key : Option String) (v : Int) : Option JState :=
  setValueRaw s key (.num (.int v))

def setDouble (s : JState) (key : Option String) (q : Rat) : Option JState :=
  setValueRaw s key (.num (.dbl q))

/-- `setFloat` forwards to `setDouble`; `float → double` is exact. -/
def setFloat (s : JState) (key : Option String) (q : Rat) : Option JState :=
  setDouble s key q

def setBool (s : JState) (key : Option String) (b : Bool) : Option JState :=
  setValueRaw s key (.bool b)

def setUInt32 (s : JState) (key : Option String) (v : Int) : Option JState :=
  setValueRaw s key (.num (.int v))

def setUInt64 (s : JState) (key : Option String) (v : Int) : Option JState :=
  setValueRaw s key (.num (.int v))

/-! ## Typed scalar reads

Every scalar getter in the source reads `document_` — the document root —
directly (`document_.HasMember(key) && document_[key].Is...()`); the context
stack is not consulted.  `HasMember` on a non-object root is a RapidJSON
assertion failure; that envelope is modelled by the default-value fallback
and no theorem is stated over a non-object root. -/

def getString (s : JState) (key : String) (defaultValue : String) : String :=
  match s.document with
  | .obj ms =>
      match List.lookup key ms with
      | some (.str v) => v
      | _ => defaultValue
  | _ => defaultValue

/-- `getInt64`: on a number, try Int64, then Uint64 (cast through the 64-bit
union), then Int, then Uint, then truncate a double. -/
def getInt64 (s : JState) (key : String) (defaultValue : Int) : Int :=
  match s.document with
  | .obj ms =>
      match List.lookup key ms with
      | some (.num n) =>
          if n.isInt64 then n.i64
          else if n.isUint64 then wrapInt64 n.u64
          else if n.isInt32 then n.i64
          else if n.isUint32 then n.i64
          else if n.isDbl then ratTrunc n.toDbl
          else defaultValue
      | _ => defaultValue
  | _ => defaultValue

def getDouble (s : JState) (key : String) (defaultValue : Rat) : Rat :=
  match s.document with
  | .obj ms =>
      match List.lookup key ms with
      | some (.num n) => n.toDbl
      | _ => defaultValue
  | _ => defaultValue

/-- `getFloat` forwards to `getDouble` with both casts; the casts are exact
for values that originated as floats and are modelled as the identity. -/
def getFloat (s : JState) (key : String) (defaultValue : Rat) : Rat :=
  getDouble s key defaultValue

def getBool (s : JState) (key : String) (defaultValue : Bool) : Bool :=
  match s.document with
  | .obj ms =>
      match List.lookup key ms with
      | some (.bool b) => b
      | _ => defaultValue
  | _ => defaultValue

/-- `getUInt32`: Uint directly; Uint64 and Int64 only when the value fits in
unsigned 32-bit range, else the default; any other number (a double) falls
through to the default. -/
def getUInt32 (s : JState) (key : String) (defaultValue : Int) : Int :=
  match s.document with
  | .obj ms =>
      match List.lookup key ms with
      | some (.num n) =>
          if n.isUint32 then n.u64
          else if n.isUint64 then
            if n.u64 ≤ 4294967295 then n.u64 else defaultValue
          else if n.isInt64 then
            if 0 ≤ n.i64 ∧ n.i64 ≤ 4294967295 then n.i64 else defaultValue
          else defaultValue
      | _ => defaultValue
  | _ => defaultValue

/-- `getUInt64`: Uint64 or Uint directly; Int64 only when non-negative. -/
def getUInt64 (s : JState) (key : String) (defaultValue : Int) : Int :=
  match s.document with
  | .obj ms =>
      match List.lookup key ms with
      | some (.num n) =>
          if n.isUint64 then n.u64
          else if n.isUint32 then n.u64
          else if n.isInt64 then
            if 0 ≤ n.i64 then n.i64 else defaultValue
          else defaultValue
      | _ => defaultValue
  | _ => defaultValue

/-! ## Element conversions (`convertFromValue<T>` / `convertToValue<T>`)

`convertFromValue` guards numeric targets only with `IsNumber()` and then
calls the width-specific getter; a kind-level mismatch yields the target's
zero value. -/

def convString : JValue → String
  | .str v => v
  | _ => ""

def convInt64 : JValue → Int
  | .num n => n.i64
  | _ => 0

/-- `static_cast<uint32_t>(GetUint64())`: reduction mod 2^32. -/
def convUInt32 : JValue → Int
  | .num n => n.u64 % 4294967296
  | _ => 0

def convUInt64 : JValue → Int
  | .num n => n.u64
  | _ => 0

def convDouble : JValue → Rat
  | .num n => n.toDbl
  | _ => 0

def convFloat : JValue → Rat
  | .num n => n.toDbl
  | _ => 0

def convBool : JValue → Bool
  | .bool b => b
  | _ => false

/-- `convertToValue` for each of the seven primitive kinds: strings by copy,
arithmetic types through the matching `rapidjson::Value` constructor. -/
def toValString (v : String) : JValue := .str v
def toValInt64 (v : Int) : JValue := .num (.int v)
def toValUInt32 (v : Int) : JValue := .num (.int v)
def toValUInt64 (v : Int) : JValue := .num (.int v)
def toValDouble (q : Rat) : JValue := .num (.dbl q)
def toValFloat (q : Rat) : JValue := .num (.dbl q)
def toValBool (b : Bool) : JValue := .bool b

/-! ## Array read / write

`getArray<T>` reads `document_` — the root — directly: if the root has the
key and it is an array, convert every element with `convertFromValue<T>`,
else return the empty vector.  `setArray<T>` calls `ensureObject()`, builds a
fresh array from the converted values in input order, and upserts it into
`document_` — again the root — by `HasMember`/`operator[]=`/`AddMember`.
Neither consults the context stack. -/

def getArrayBy (conv : JValue → α) (s : JState) (key : String) : List α :=
  match s.document with
  | .obj ms =>
      match List.lookup key ms with
      | some (.arr es) => es.map conv
      | _ => []
  | _ => []

def setArrayBy (toVal : α → JValue) (s : JState) (key : String)
    (values : List α) : JState :=
  match ensureObject s.document with
  | .obj ms => ⟨.obj (setMember ms key (.arr (values.map toVal))), s.stack⟩
  | d => ⟨d, s.stack⟩

def getArrayString (s : JState) (key : String) : List String :=
  getArrayBy convString s key

def getArrayInt64 (s : JState) (key : String) : List Int :=
  getArrayBy convInt64 s key

def getArrayUInt32 (s : JState) (key : String) : List Int :=
  getArrayBy convUInt32 s key

def getArrayUInt64 (s : JState) (key : String) : List Int :=
  getArrayBy convUInt64 s key

def getArrayDouble (s : JState) (key : String) : List Rat :=
  getArrayBy convDouble s key

def getArrayFloat (s : JState) (key : String) : List Rat :=
  getArrayBy convFloat s key

def getArrayBool (s : JState) (key : String) : List Bool :=
  getArrayBy convBool s key

def setArrayString (s : JState) (key : String) (vs : List String) : JState :=
  setArrayBy toValString s key vs

def setArrayInt64 (s : JState) (key : String) (vs : List Int) : JState :=
  setArrayBy toValInt64 s key vs

def setArrayUInt32 (s : JState) (key : String) (vs : List Int) : JState :=
  setArrayBy toValUInt32 s key vs

def setArrayUInt64 (s : JState) (key : String) (vs : List Int) : JState :=
  setArrayBy toValUInt64 s key vs

def setArrayDouble (s : JState) (key : String) (vs : List Rat) : JState :=
  setArrayBy toValDouble s key vs

def setArrayFloat (s : JState) (key : String) (vs : List Rat) : JState :=
  setArrayBy toValFloat s key vs

def setArrayBool (s : JState) (key : String) (vs : List Bool) : JState :=
  setArrayBy toValBool s key vs

/-! ## Begin/End structural operations

`beginObject(key)` (with `key = nullptr` modelled as `none`):
first `ensureObject()`, then
* empty stack, key given: append a `(key, {})` member to the root (AddMember,
  which duplicates an existing key) and target `&document_[key]` — the first
  member with that key;
* empty stack, no key: target the root itself;
* array-mode top frame: append `{}` to the array, target the new element;
* object-mode top frame, key given: append a `(key, {})` member (duplicate
  allowed) and target the first member with that key;
* object-mode top frame, no key: no target.
A frame is pushed only when a target was produced.  `beginArray` is the same
except the created value is `[]`, the frame is tagged ARRAY, and the
empty-stack/no-key branch produces no target (there is no root branch). -/

def beginObject (s : JState) (key : Option String) : Option JState :=
  match ensureObject s.document, s.stack with
  | d, [] =>
      match key with
      | some k =>
          match d with
          | .obj ms =>
              some ⟨.obj (ms ++ [(k, .obj [])]), [⟨[.field k], false, k⟩]⟩
          | _ => none
      | none => some ⟨d, [⟨[], false, ""⟩]⟩
  | d, fr :: rest =>
      match resolve fr.path d with
      | none => none
      | some cur =>
          if fr.isArr then
            match cur with
            | .arr es =>
                (updateAt fr.path (fun _ => .arr (es ++ [.obj []])) d).map
                  fun d' =>
                    ⟨d', ⟨fr.path ++ [.idx es.length], false,
                        key.getD ""⟩ :: fr :: rest⟩
            | _ => none
          else
            match key with
            | some k =>
                match cur with
                | .obj ms =>
                    (updateAt fr.path (fun _ => .obj (ms ++ [(k, .obj [])]))
                        d).map fun d' =>
                      ⟨d', ⟨fr.path ++ [.field k], false, k⟩ :: fr :: rest⟩
                | _ => none
            | none => some ⟨d, fr :: rest⟩

/-- `endObject`: pop the top frame iff it exists and is object-mode. -/
def endObject (s : JState) : JState :=
  match s.stack with
  | fr :: rest => if fr.isArr then s else ⟨s.document, rest⟩
  | [] => s

def beginArray (s : JState) (key : Option String) : Option JState :=
  match ensureObject s.document, s.stack with
  | d, [] =>
      match key with
      | some k =>
          match d with
          | .obj ms =>
              some ⟨.obj (ms ++ [(k, .arr [])]), [⟨[.field k], true, k⟩]⟩
          | _ => none
      | none => some ⟨d, []⟩
  | d, fr :: rest =>
      match resolve fr.path d with
      | none => none
      | some cur =>
          if fr.isArr then
            match cur with
            | .arr es =>
                (updateAt fr.path (fun _ => .arr (es ++ [.arr []])) d).map
                  fun d' =>
                    ⟨d', ⟨fr.path ++ [.idx es.length], true,
                        key.getD ""⟩ :: fr :: rest⟩
            | _ => none
          else
            match key with
            | some k =>
                match cur with
                | .obj ms =>
                    (updateAt fr.path (fun _ => .obj (ms ++ [(k, .arr [])]))
                        d).map fun d' =>
                      ⟨d', ⟨fr.path ++ [.field k], true, k⟩ :: fr :: rest⟩
                | _ => none
            | none => some ⟨d, fr :: rest⟩

/-- `endArray`: pop the top frame iff it exists and is array-mode. -/
def endArray (s : JState) : JState :=
  match s.stack with
  | fr :: rest => if fr.isArr then ⟨s.document, rest⟩ else s
  | [] => s

/-! ## Parsing -/

/-- `parseFromString`: `document_.Parse(jsonStr)` followed by clearing the
context stack.  The parse itself belongs to the external JSON library, so its
outcome is passed in as `parsed`.  Modelled from the spec: the underlying
`parse` replaces the Document on success, and on failure "the Document is
left as an empty object" (spec, section 4.1); the stack clear is source
behaviour. -/
def parseFromString (s : JState) (parsed : Option JValue) : JState :=
  match s, parsed with
  | _, some d => ⟨d, []⟩
  | _, none => ⟨.obj [], []⟩

/-! ## Serialization / deserialization entry points

`ToJsonable::toJson` runs the user's `saveToJson` callback and then
`documentToString`; `FromJsonable::fromJson` runs `parseFromString` and then
the user's `loadFromJson` callback.  Stringify/parse belong to the external
JSON library, so they appear as parameters. -/

def toJsonText (serialize : JValue → Text) (st : JState) : Text :=
  serialize st.document

def fromJsonState (parse : Text → Option JValue) (s : JState) (text : Text) :
    JState :=
  parseFromString s (parse text)

/-! ## The active target, and the spec's claimed read semantics

`getCurrentContext()` returns the top frame's pointer, or null on an empty
stack; the spec's "active target" is that value, or the Document root when
the stack is empty. -/

def activeTarget (s : JState) : Option JValue :=
  match s.stack with
  | fr :: _ => resolve fr.path s.document
  | [] => some s.document

/-- Modelled from the spec: the claimed semantics of the typed read — "Looks
up `key` in `activeTarget()` (which must be an object — if it is an array,
lookup by key is meaningless and the accessor simply returns `default`)".
Stated only to be compared against the source's `getString`. -/
def getStringClaimed (s : JState) (key : String) (defaultValue : String) :
    String :=
  match activeTarget s with
  | some (.obj ms) =>
      match List.lookup key ms with
      | some (.str v) => v
      | _ => defaultValue
  | _ => defaultValue

/-! ## Kind introspection (RapidJSON `IsString` / `IsBool`) -/

def JValue.isStr : JValue → Bool
  | .str _ => true
  | _ => false

def JValue.isBool : JValue → Bool
  | .bool _ => true
  | _ => false

/-! ## A sequence of typed scalar writes (for the array-context claims)

One `set<Kind>(key, value)` call, with its possibly-null key; `applySets`
issues a list of them in order. -/

inductive ScalarVal where
  | sstr (v : String)
  | si64 (v : Int)
  | su32 (v : Int)
  | su64 (v : Int)
  | sdbl (q : Rat)
  | sflt (q : Rat)
  | sbool (b : Bool)

/-- The JSON value each setter builds for its argument. -/
def ScalarVal.toJValue : ScalarVal → JValue
  | .sstr v => .str v
  | .si64 v => .num (.int v)
  | .su32 v => .num (.int v)
  | .su64 v => .num (.int v)
  | .sdbl q => .num (.dbl q)
  | .sflt q => .num (.dbl q)
  | .sbool b => .bool b

def applySet (s : JState) : Option String × ScalarVal → Option JState
  | (k, .sstr v) => setString s k v
  | (k, .si64 v) => setInt64 s k v
  | (k, .su32 v) => setUInt32 s k v
  | (k, .su64 v) => setUInt64 s k v
  | (k, .sdbl q) => setDouble s k q
  | (k, .sflt q) => setFloat s k q
  | (k, .sbool b) => setBool s k b

def applySets (s : JState) (calls : List (Option String × ScalarVal)) :
    Option JState :=
  calls.foldlM applySet s

/-! ## A user type made of the seven primitive kinds and their arrays

One field value per supported shape; a record is a list of named fields.
`writeField` is what the user's `saveToJson` does for one field (the typed
setter for a scalar, `setArray` for an array); `readField` is what
`loadFromJson` does (the typed getter with that kind's zero default,
`getArray` for arrays). -/

inductive FieldVal where
  | vstr (v : String)
  | vi64 (v : Int)
  | vu32 (v : Int)
  | vu64 (v : Int)
  | vdbl (q : Rat)
  | vflt (q : Rat)
  | vbool (b : Bool)
  | vastr (vs : List String)
  | vai64 (vs : List Int)
  | vau32 (vs : List Int)
  | vau64 (vs : List Int)
  | vadbl (qs : List Rat)
  | vaflt (qs : List Rat)
  | vabool (bs : List Bool)

/-- The C++-side representability of a field value: each machine integer lies
in its type's range.  (In C++ this holds by construction of the field's
type.) -/
def FieldVal.valid : FieldVal → Prop
  | .vstr _ => True
  | .vi64 v => -9223372036854775808 ≤ v ∧ v < 9223372036854775808
  | .vu32 v => 0 ≤ v ∧ v < 4294967296
  | .vu64 v => 0 ≤ v ∧ v < 18446744073709551616
  | .vdbl _ => True
  | .vflt _ => True
  | .vbool _ => True
  | .vastr _ => True
  | .vai64 vs => ∀ v ∈ vs, -9223372036854775808 ≤ v ∧ v < 9223372036854775808
  | .vau32 vs => ∀ v ∈ vs, 0 ≤ v ∧ v < 4294967296
  | .vau64 vs => ∀ v ∈ vs, 0 ≤ v ∧ v < 18446744073709551616
  | .vadbl _ => True
  | .vaflt _ => True
  | .vabool _ => True

/-- The JSON value the corresponding setter stores for this field. -/
def FieldVal.toJValue : FieldVal → JValue
  | .vstr v => .str v
  | .vi64 v => .num (.int v)
  | .vu32 v => .num (.int v)
  | .vu64 v => .num (.int v)
  | .vdbl q => .num (.dbl q)
  | .vflt q => .num (.dbl q)
  | .vbool b => .bool b
  | .vastr vs => .arr (vs.map toValString)
  | .vai64 vs => .arr (vs.map toValInt64)
  | .vau32 vs => .arr (vs.map toValUInt32)
  | .vau64 vs => .arr (vs.map toValUInt64)
  | .vadbl qs => .arr (qs.map toValDouble)
  | .vaflt qs => .arr (qs.map toValFloat)
  | .vabool bs => .arr (bs.map toValBool)

/-- One field written by `saveToJson`: the typed setter matching the field's
kind, at top level (empty context stack when called there). -/
def writeField (s : JState) (k : String) : FieldVal → Option JState
  | .vstr v => setString s (some k) v
  | .vi64 v => setInt64 s (some k) v
  | .vu32 v => setUInt32 s (some k) v
  | .vu64 v => setUInt64 s (some k) v
  | .vdbl q => setDouble s (some k) q
  | .vflt q => setFloat s (some k) q
  | .vbool b => setBool s (some k) b
  | .vastr vs => some (setArrayString s k vs)
  | .vai64 vs => some (setArrayInt64 s k vs)
  | .vau32 vs => some (setArrayUInt32 s k vs)
  | .vau64 vs => some (setArrayUInt64 s k vs)
  | .vadbl qs => some (setArrayDouble s k qs)
  | .vaflt qs => some (setArrayFloat s k qs)
  | .vabool bs => some (setArrayBool s k bs)

/-- `saveToJson` for the record: write every field in order, starting from a
freshly constructed façade. -/
def saveFields (fields : List (String × FieldVal)) : Option JState :=
  fields.foldlM (fun s kf => writeField s kf.1 kf.2) freshState

/-- One field read back by `loadFromJson`: the typed getter matching the
field's declared kind, with that kind's zero default. -/
def readField (s : JState) (k : String) : FieldVal → FieldVal
  | .vstr _ => .vstr (getString s k "")
  | .vi64 _ => .vi64 (getInt64 s k 0)
  | .vu32 _ => .vu32 (getUInt32 s k 0)
  | .vu64 _ => .vu64 (getUInt64 s k 0)
  | .vdbl _ => .vdbl (getDouble s k 0)
  | .vflt _ => .vflt (getFloat s k 0)
  | .vbool _ => .vbool (getBool s k false)
  | .vastr _ => .vastr (getArrayString s k)
  | .vai64 _ => .vai64 (getArrayInt64 s k)
  | .vau32 _ => .vau32 (getArrayUInt32 s k)
  | .vau64 _ => .vau64 (getArrayUInt64 s k)
  | .vadbl _ => .vadbl (getArrayDouble s k)
  | .vaflt _ => .vaflt (getArrayFloat s k)
  | .vabool _ => .vabool (getArrayBool s k)

/-- `loadFromJson` for the record: read every declared field. -/
def loadFields (s : JState) (fields : List (String × FieldVal)) :
    List (String × FieldVal) :=
  fields.map fun kf => (kf.1, readField s kf.1 kf.2)

/-! ## Helper lemmas -/

theorem lookup_cons_self (k : String) (v : β) (ms : List (String × β)) :
    List.lookup k ((k, v) :: ms) = some v := by
  simp [List.lookup]

theorem lookup_cons_ne {k k' : String} (v : β) (ms : List (String × β))
    (h : k ≠ k') : List.lookup k ((k', v) :: ms) = List.lookup k ms := by
  have hb : (k == k') = false := beq_eq_false_iff_ne.mpr h
  simp [List.lookup, hb]

theorem lookup_append_left {k : String} {ms : List (String × β)} {v : β}
    (ms' : List (String × β)) (h : List.lookup k ms = some v) :
    List.lookup k (ms ++ ms') = some v := by
  induction ms with
  | nil => simp [List.lookup] at h
  | cons hd tl ih =>
      obtain ⟨k', v'⟩ := hd
      by_cases hk : k = k'
      · subst hk
        rw [lookup_cons_self] at h
        simpa [lookup_cons_self] using h
      · rw [lookup_cons_ne _ _ hk] at h
        rw [List.cons_append, lookup_cons_ne _ _ hk]
        exact ih h

theorem lookup_append_right {k : String} {ms ms' : List (String × β)}
    (h : List.lookup k ms = none) :
    List.lookup k (ms ++ ms') = List.lookup k ms' := by
  induction ms with
  | nil => simp
  | cons hd tl ih =>
      obtain ⟨k', v'⟩ := hd
      by_cases hk : k = k'
      · subst hk; rw [lookup_cons_self] at h; cases h
      · rw [lookup_cons_ne _ _ hk] at h
        rw [List.cons_append, lookup_cons_ne _ _ hk]
        exact ih h

theorem setMember_lookup_self (ms : List (String × JValue)) (k : String)
    (v : JValue) : List.lookup k (setMember ms k v) = some v := by
  induction ms with
  | nil => simp [setMember, lookup_cons_self]
  | cons hd tl ih =>
      obtain ⟨k', v'⟩ := hd
      by_cases hk : k' = k
      · subst hk; simp [setMember, lookup_cons_self]
      · have hk' : k ≠ k' := fun h => hk h.symm
        simp only [setMember, if_neg hk]
        rw [lookup_cons_ne _ _ hk']
        exact ih

theorem setMember_lookup_ne (ms : List (String × JValue)) {k k' : String}
    (v : JValue) (h : k' ≠ k) :
    List.lookup k' (setMember ms k v) = List.lookup k' ms := by
  induction ms with
  | nil => simp [setMember, lookup_cons_ne _ _ h]
  | cons hd tl ih =>
      obtain ⟨k'', v''⟩ := hd
      by_cases hk : k'' = k
      · subst hk
        rw [setMember, if_pos rfl, lookup_cons_ne _ _ h, lookup_cons_ne _ _ h]
      · rw [setMember, if_neg hk]
        by_cases hk2 : k' = k''
        · subst hk2; rw [lookup_cons_self, lookup_cons_self]
        · rw [lookup_cons_ne _ _ hk2, lookup_cons_ne _ _ hk2]
          exact ih

theorem setMember_of_not_mem {ms : List (String × JValue)} {k : String}
    (v : JValue) (h : k ∉ ms.map Prod.fst) :
    setMember ms k v = ms ++ [(k, v)] := by
  induction ms with
  | nil => simp [setMember]
  | cons hd tl ih =>
      obtain ⟨k', v'⟩ := hd
      simp only [List.map_cons, List.mem_cons] at h
      push_neg at h
      have hne : ¬ k' = k := fun he => h.1 he.symm
      rw [setMember, if_neg hne, List.cons_append, ih h.2]

theorem setMember_keys (ms : List (String × JValue)) (k : String)
    (v : JValue) :
    (setMember ms k v).map Prod.fst =
      if k ∈ ms.map Prod.fst then ms.map Prod.fst
      else ms.map Prod.fst ++ [k] := by
  induction ms with
  | nil => simp [setMember]
  | cons hd tl ih =>
      obtain ⟨k', v'⟩ := hd
      by_cases hk : k' = k
      · subst hk; simp [setMember]
      · have hk' : ¬ k = k' := fun h => hk h.symm
        simp only [setMember, if_neg hk, List.map_cons, List.mem_cons, ih]
        by_cases hmem : k ∈ tl.map Prod.fst
        · simp [hmem, hk']
        · simp [hmem, hk']

theorem updateMemberFirst_spec {ms : List (String × JValue)} {k : String}
    {F : JValue → Option JValue} {w w' : JValue}
    (hl : List.lookup k ms = some w) (hF : F w = some w') :
    ∃ ms', updateMemberFirst ms k F = some ms' ∧
      List.lookup k ms' = some w' ∧
      (∀ k', k' ≠ k → List.lookup k' ms' = List.lookup k' ms) := by
  induction ms with
  | nil => simp [List.lookup] at hl
  | cons hd tl ih =>
      obtain ⟨k', v'⟩ := hd
      by_cases hk : k = k'
      · subst hk
        rw [lookup_cons_self] at hl
        obtain rfl : v' = w := by injection hl
        refine ⟨(k, w') :: tl, ?_, ?_, ?_⟩
        · simp [updateMemberFirst, hF]
        · exact lookup_cons_self _ _ _
        · intro k'' hk''
          rw [lookup_cons_ne _ _ hk'', lookup_cons_ne _ _ hk'']
      · rw [lookup_cons_ne _ _ hk] at hl
        obtain ⟨ms', hms', hlook, hother⟩ := ih hl
        refine ⟨(k', v') :: ms', ?_, ?_, ?_⟩
        · have hk' : ¬ k' = k := fun h => hk h.symm
          simp [updateMemberFirst, if_neg hk', hms']
        · rw [lookup_cons_ne _ _ hk]; exact hlook
        · intro k'' hk''
          by_cases h2 : k'' = k'
          · subst h2; rw [lookup_cons_self, lookup_cons_self]
          · rw [lookup_cons_ne _ _ h2, lookup_cons_ne _ _ h2]
            exact hother k'' hk''

/-- Mutating through a valid path succeeds and the path then resolves to the
mutated value: the model-level statement that a context frame's pointer stays
attached to the value it was taken from. -/
theorem updateAt_of_resolve {p : Path} :
    ∀ {d v : JValue} (f : JValue → JValue), resolve p d = some v →
      ∃ d', updateAt p f d = some d' ∧ resolve p d' = some (f v) := by
  induction p with
  | nil =>
      intro d v f h
      obtain rfl : d = v := by injection h
      exact ⟨f d, rfl, rfl⟩
  | cons step p ih =>
      intro d v f h
      cases step with
      | field k =>
          cases d with
          | obj ms =>
              simp only [resolve, Option.bind_eq_some] at h
              obtain ⟨w, hw, hres⟩ := h
              obtain ⟨w', hw', hres'⟩ := ih f hres
              obtain ⟨ms', hms', hlook, _⟩ := updateMemberFirst_spec hw hw'
              refine ⟨.obj ms', ?_, ?_⟩
              · simp [updateAt, hms']
              · simp [resolve, hlook, hres']
          | null => simp [resolve] at h
          | bool b => simp [resolve] at h
          | num n => simp [resolve] at h
          | str s => simp [resolve] at h
          | arr es => simp [resolve] at h
      | idx i =>
          cases d with
          | arr es =>
              simp only [resolve, Option.bind_eq_some] at h
              obtain ⟨w, hw, hres⟩ := h
              obtain ⟨w', hw', hres'⟩ := ih f hres
              have hlen : i < es.length := by
                have := List.getElem?_eq_some_iff.mp hw
                exact this.1
              refine ⟨.arr (es.set i w'), ?_, ?_⟩
              · simp [updateAt, hw, hw']
              · have : (es.set i w')[i]? = some w' := by
                  rw [List.getElem?_set_eq_of_lt w' hlen]
                simp [resolve, this, hres']
          | null => simp [resolve] at h
          | bool b => simp [resolve] at h
          | num n => simp [resolve] at h
          | str s => simp [resolve] at h
          | obj ms => simp [resolve] at h

/-! ## Claim C7: endObject / endArray pop discipline -/

/-- Claim C7: in every state, `endObject` pops the top frame iff it exists
and is OBJECT-mode, `endArray` pops it iff it exists and is ARRAY-mode; a
mismatched call (wrong top mode or empty stack) changes nothing, and the
document is never touched by either call. -/
theorem c7_end_pop_iff (s : JState) :
    (endObject s).document = s.document ∧
    (endArray s).document = s.document ∧
    (s.stack = [] → endObject s = s ∧ endArray s = s) ∧
    (∀ fr rest, s.stack = fr :: rest →
      (fr.isArr = false → endObject s = ⟨s.document, rest⟩ ∧ endArray s = s) ∧
      (fr.isArr = true → endArray s = ⟨s.document, rest⟩ ∧ endObject s = s)) := by
  obtain ⟨d, stk⟩ := s
  cases stk with
  | nil => simp [endObject, endArray]
  | cons fr rest =>
      refine ⟨?_, ?_, by simp, ?_⟩
      · cases hfr : fr.isArr <;> simp [endObject, hfr]
      · cases hfr : fr.isArr <;> simp [endArray, hfr]
      · intro fr' rest' h
        obtain ⟨rfl, rfl⟩ : fr' = fr ∧ rest' = rest := by
          have h2 := List.cons.inj h
          exact ⟨h2.1.symm, h2.2.symm⟩
        constructor
        · intro hfr; simp [endObject, endArray, hfr]
        · intro hfr; simp [endObject, endArray, hfr]

/-- Witness for C7 at a concrete one-frame ARRAY-mode stack. -/
theorem c7_end_pop_iff_witness :
    endArray ⟨.obj [], [⟨[], true, ""⟩]⟩ = ⟨.obj [], []⟩ ∧
    endObject ⟨.obj [], [⟨[], true, ""⟩]⟩ = ⟨.obj [], [⟨[], true, ""⟩]⟩ :=
  ((c7_end_pop_iff ⟨.obj [], [⟨[], true, ""⟩]⟩).2.2.2 ⟨[], true, ""⟩ [] rfl).2 rfl

/-! ## Claim C8: rootless beginArray -/

/-- Claim C8 counterexample: calling `beginArray` with no key on an empty
stack does not push any frame — the `beginObject` branch that targets the
Document root has no counterpart in `beginArray`, so the call is a no-op and
the claimed ARRAY frame never appears. -/
theorem c8_counterexample :
    ¬ ∃ s', beginArray freshState none = some s' ∧ s'.stack ≠ [] := by
  intro h
  obtain ⟨s', h1, h2⟩ := h
  have he : beginArray freshState none = some ⟨.obj [], []⟩ := rfl
  rw [he] at h1
  cases h1
  exact h2 rfl

/-- Claim C8 amended: `beginArray` with no key on an empty stack is a silent
no-op — no frame is pushed, the stack stays empty, and the document is only
subjected to `ensureObject`; the Document root is not made the active target
(this is where `beginArray` is not symmetric to `beginObject`). -/
theorem c8_amended (s : JState) (h : s.stack = []) :
    beginArray s none = some ⟨ensureObject s.document, []⟩ := by
  obtain ⟨d, stk⟩ := s
  simp only at h
  subst h
  rfl

/-- Witness for C8 amended at the fresh state. -/
theorem c8_amended_witness :
    beginArray freshState none = some ⟨ensureObject freshState.document, []⟩ :=
  c8_amended freshState rfl

/-! ## Claim C2: malformed input tolerance of the decode entry point -/

/-- Claim C2: when the parse fails (the text is not well-formed JSON, modelled
by the parse outcome `none`), `fromJson`'s `parseFromString` proceeds with an
empty-object document and a cleared stack, so every subsequent typed get, of
any key and any kind, returns the caller's default, and every array get
returns the empty sequence; nothing fails. -/
theorem c2_malformed_input_defaults (s : JState) (key : String) (ds : String)
    (di : Int) (dq : Rat) (db : Bool) (du32 du64 : Int) :
    getString (parseFromString s none) key ds = ds ∧
    getInt64 (parseFromString s none) key di = di ∧
    getDouble (parseFromString s none) key dq = dq ∧
    getFloat (parseFromString s none) key dq = dq ∧
    getBool (parseFromString s none) key db = db ∧
    getUInt32 (parseFromString s none) key du32 = du32 ∧
    getUInt64 (parseFromString s none) key du64 = du64 ∧
    getArrayString (parseFromString s none) key = [] ∧
    getArrayInt64 (parseFromString s none) key = [] := by
  refine ⟨rfl, rfl, rfl, rfl, rfl, rfl, rfl, rfl, rfl⟩

/-! ## Claim C4: object-mode writes and the null/empty key -/

/-- Claim C4 counterexample: with an empty stack (OBJECT-mode against the
Document root), a `set` with an empty key is NOT a no-op — the root branch of
the setters performs no key check, so a field with the empty name is
written. -/
theorem c4_counterexample :
    setString freshState (some "") "x" = some ⟨.obj [("", .str "x")], []⟩ ∧
    setString freshState (some "") "x" ≠ some freshState := by
  refine ⟨rfl, ?_⟩
  intro h
  have he : setString freshState (some "") "x" =
      some ⟨.obj [("", .str "x")], []⟩ := rfl
  rw [he] at h
  have h2 := Option.some.inj h
  simp [freshState, JState.mk.injEq] at h2

/-- Claim C4 amended: when the active target is an OBJECT-mode frame (stack
non-empty), a null or empty key makes the call a silent no-op and a non-empty
key upserts into the frame's object; at the Document root (empty stack) the
key check is skipped — every non-null key upserts, an empty key included,
writing a field with the empty name.  Upsert never duplicates: the key set
gains at most the one new key. -/
theorem c4_amended :
    (∀ (s : JState) (fr : Frame) (rest : List Frame)
        (ms : List (String × JValue)) (k : String) (v : String),
      s.stack = fr :: rest → fr.isArr = false →
      resolve fr.path s.document = some (.obj ms) →
      setString s none v = some s ∧
      setString s (some "") v = some s ∧
      (0 < k.length →
        ∃ d', updateAt fr.path (fun _ => .obj (setMember ms k (.str v)))
            s.document = some d' ∧
          setString s (some k) v = some ⟨d', s.stack⟩)) ∧
    (∀ (ms : List (String × JValue)) (k : String) (v : String),
      setString ⟨.obj ms, []⟩ (some k) v =
        some ⟨.obj (setMember ms k (.str v)), []⟩) ∧
    (∀ (ms : List (String × JValue)) (k : String) (v : JValue),
      List.lookup k (setMember ms k v) = some v ∧
      (setMember ms k v).map Prod.fst =
        (if k ∈ ms.map Prod.fst then ms.map Prod.fst
         else ms.map Prod.fst ++ [k])) := by
  refine ⟨?_, ?_, ?_⟩
  · intro s fr rest ms k v hstk hfr hres
    obtain ⟨d, stk⟩ := s
    simp only at hstk hres
    subst hstk
    refine ⟨?_, ?_, ?_⟩
    · simp [setString, setValueRaw, hres, hfr]
    · simp [setString, setValueRaw, hres, hfr]
    · intro hk
      obtain ⟨d', hup, _⟩ :=
        updateAt_of_resolve (fun _ => .obj (setMember ms k (.str v))) hres
      refine ⟨d', hup, ?_⟩
      simp [setString, setValueRaw, hres, hfr, Nat.pos_iff_ne_zero.mp hk, hup]
  · intro ms k v
    rfl
  · intro ms k v
    exact ⟨setMember_lookup_self ms k v, setMember_keys ms k v⟩

/-- Witness for C4 amended: inside an OBJECT frame an empty key is dropped,
and a root-level write with key "a" upserts. -/
theorem c4_amended_witness :
    setString ⟨.obj [("p", .obj [])], [⟨[.field "p"], false, "p"⟩]⟩
        (some "") "v" =
      some ⟨.obj [("p", .obj [])], [⟨[.field "p"], false, "p"⟩]⟩ ∧
    setString ⟨.obj [], []⟩ (some "a") "v" =
      some ⟨.obj (setMember [] "a" (.str "v")), []⟩ :=
  ⟨(c4_amended.1 ⟨.obj [("p", .obj [])], [⟨[.field "p"], false, "p"⟩]⟩
      ⟨[.field "p"], false, "p"⟩ [] [] "x" "v" rfl rfl rfl).2.1,
   c4_amended.2.1 [] "a" "v"⟩

/-! ## Claim C5: setArray target resolution -/

/-- Claim C5 counterexample: with an open OBJECT frame "sub" as the active
target, `setArray` writes the new array into the Document root, not into the
active object — "sub" stays empty and the root gains the field. -/
theorem c5_counterexample :
    ((beginObject freshState (some "sub")).map fun s1 =>
        ((setArrayInt64 s1 "a" [1]).document,
         resolve [.field "sub"] (setArrayInt64 s1 "a" [1]).document)) =
      some (.obj [("sub", .obj []), ("a", .arr [.num (.int 1)])],
            some (.obj [])) := rfl

/-- Claim C5 amended: `setArray` replaces (upserts) the field at `key` with a
newly built array of the converted values in input order — but always in the
Document root, ignoring the context stack entirely. -/
theorem c5_amended {α : Type} (toVal : α → JValue)
    (ms : List (String × JValue)) (stk : List Frame) (k : String)
    (vs : List α) :
    setArrayBy toVal ⟨.obj ms, stk⟩ k vs =
      ⟨.obj (setMember ms k (.arr (vs.map toVal))), stk⟩ ∧
    List.lookup k (setMember ms k (.arr (vs.map toVal))) =
      some (.arr (vs.map toVal)) :=
  ⟨rfl, setMember_lookup_self ms k _⟩

/-! ## More helper lemmas: paths and array-mode writes -/

theorem resolve_append (p p' : Path) :
    ∀ d : JValue, resolve (p ++ p') d = (resolve p d).bind (resolve p') := by
  induction p with
  | nil => intro d; simp [resolve]
  | cons step p ih =>
      intro d
      cases step with
      | field k =>
          cases d <;> simp [resolve, Option.bind_assoc, ih]
      | idx i =>
          cases d <;> simp [resolve, Option.bind_assoc, ih]

/-- A scalar write while the top frame is ARRAY-mode: any key (null, empty or
not) is ignored, the value is appended to the frame's array, and the stack is
untouched. -/
theorem setValueRaw_arrayMode {fr : Frame} {rest : List Frame}
    {es : List JValue} (s : JState) (hstk : s.stack = fr :: rest)
    (hfr : fr.isArr = true)
    (hres : resolve fr.path s.document = some (.arr es))
    (key : Option String) (v : JValue) :
    ∃ d', setValueRaw s key v = some ⟨d', s.stack⟩ ∧
      resolve fr.path d' = some (.arr (es ++ [v])) := by
  obtain ⟨d, stk⟩ := s
  simp only at hstk hres
  subst hstk
  obtain ⟨d', hup, hres'⟩ :=
    updateAt_of_resolve (fun _ => .arr (es ++ [v])) hres
  refine ⟨d', ?_, hres'⟩
  simp [setValueRaw, hres, hfr, hup]

/-! ## Claim C6: array-mode writes ignore the key and append in order -/

/-- Claim C6: starting from any state whose top frame is ARRAY-mode and
refers to an array with elements `es`, a sequence of `set<Kind>` calls with
arbitrary keys (null, empty or any string) succeeds, leaves the stack
unchanged, and leaves the frame's array holding exactly `es` followed by the
written values, converted in call order — the keys influence nothing and no
keys appear in the output. -/
theorem c6_array_appends (calls : List (Option String × ScalarVal)) :
    ∀ (s : JState) (fr : Frame) (rest : List Frame) (es : List JValue),
      s.stack = fr :: rest → fr.isArr = true →
      resolve fr.path s.document = some (.arr es) →
      ∃ s', applySets s calls = some s' ∧ s'.stack = s.stack ∧
        resolve fr.path s'.document =
          some (.arr (es ++ calls.map fun c => c.2.toJValue)) := by
  induction calls with
  | nil =>
      intro s fr rest es h1 _ h3
      exact ⟨s, rfl, rfl, by simpa using h3⟩
  | cons c cs ih =>
      intro s fr rest es h1 h2 h3
      obtain ⟨k, sv⟩ := c
      have step : ∃ d', applySet s (k, sv) = some ⟨d', s.stack⟩ ∧
          resolve fr.path d' = some (.arr (es ++ [sv.toJValue])) := by
        cases sv <;> exact setValueRaw_arrayMode s h1 h2 h3 k _
      obtain ⟨d', happ, hres'⟩ := step
      obtain ⟨s', h4, h5, h6⟩ :=
        ih ⟨d', s.stack⟩ fr rest (es ++ [sv.toJValue]) (by rw [h1]) h2 hres'
      refine ⟨s', ?_, ?_, ?_⟩
      · simp only [applySets, List.foldlM_cons] at *
        rw [happ]
        simpa [applySets] using h4
      · rw [h5]
      · simpa [List.append_assoc] using h6

/-- Witness for C6: two writes with a null and an empty key inside a
one-frame array context append both values. -/
theorem c6_array_appends_witness :
    ∃ s', applySets ⟨.obj [("a", .arr [])], [⟨[.field "a"], true, "a"⟩]⟩
        [(none, .sstr "v1"), (some "", .si64 7)] = some s' ∧
      s'.stack = [⟨[.field "a"], true, "a"⟩] ∧
      resolve [.field "a"] s'.document =
        some (.arr [.str "v1", .num (.int 7)]) := by
  obtain ⟨s', h1, h2, h3⟩ :=
    c6_array_appends [(none, .sstr "v1"), (some "", .si64 7)]
      ⟨.obj [("a", .arr [])], [⟨[.field "a"], true, "a"⟩]⟩
      ⟨[.field "a"], true, "a"⟩ [] [] rfl rfl rfl
  exact ⟨s', h1, h2, by simpa using h3⟩

/-! ## Claim C3: where typed reads look the key up -/

/-- Claim C3 counterexample: after `beginObject("sub")` the active target is
the frame for "sub"; a write of field "k" lands there, but the typed read of
"k" consults the Document root and returns the default "d", while the spec's
claimed active-target lookup would return "v". -/
theorem c3_counterexample :
    ((beginObject freshState (some "sub")).bind fun s1 =>
        (setString s1 (some "k") "v").map fun s2 =>
          (getString s2 "k" "d", getStringClaimed s2 "k" "d")) =
      some ("d", "v") := rfl

/-- Claim C3 amended: every typed read looks its key up in the Document
root; the context stack is ignored entirely, so reads inside any begin/end
block still return root fields (and an ARRAY-mode active target does not
force the default — the root is consulted as always). -/
theorem c3_reads_root (d : JValue) (stk stk' : List Frame) (k : String)
    (ms : List (String × JValue)) (ds : String) (di : Int) (dq : Rat)
    (db : Bool) (du32 du64 : Int) :
    getString ⟨d, stk⟩ k ds = getString ⟨d, stk'⟩ k ds ∧
    getInt64 ⟨d, stk⟩ k di = getInt64 ⟨d, stk'⟩ k di ∧
    getDouble ⟨d, stk⟩ k dq = getDouble ⟨d, stk'⟩ k dq ∧
    getFloat ⟨d, stk⟩ k dq = getFloat ⟨d, stk'⟩ k dq ∧
    getBool ⟨d, stk⟩ k db = getBool ⟨d, stk'⟩ k db ∧
    getUInt32 ⟨d, stk⟩ k du32 = getUInt32 ⟨d, stk'⟩ k du32 ∧
    getUInt64 ⟨d, stk⟩ k du64 = getUInt64 ⟨d, stk'⟩ k du64 ∧
    getString ⟨.obj ms, stk⟩ k ds =
      (match List.lookup k ms with
       | some (.str v) => v
       | _ => ds) :=
  ⟨rfl, rfl, rfl, rfl, rfl, rfl, rfl, rfl⟩

/-! ## Claim C9: getArray semantics -/

/-- Claim C9 counterexample: with the top frame an ARRAY (a non-object
active target), `getArray` still reads the Document root and returns the
root's array — not the claimed empty sequence. -/
theorem c9_counterexample :
    ((beginArray (setArrayInt64 freshState "k" [1, 2]) (some "a")).map
        fun s1 => (activeTarget s1, getArrayInt64 s1 "k")) =
      some (some (.arr []), [1, 2]) := rfl

/-- Claim C9 amended: `getArray<Kind>(key)` reads the Document root,
ignoring the context stack (a non-object active target does not force the
empty result).  Against an object root it returns the empty sequence when
the key is absent or not bound to an array; when the key holds an array it
converts every element independently, preserving the array's length, and an
element whose JSON kind does not match the requested kind yields that kind's
zero value. -/
theorem c9_amended {α : Type} (conv : JValue → α)
    (ms : List (String × JValue)) (stk stk' : List Frame) (k : String) :
    (getArrayBy conv ⟨.obj ms, stk⟩ k = getArrayBy conv ⟨.obj ms, stk'⟩ k) ∧
    (∀ es, List.lookup k ms = some (.arr es) →
      getArrayBy conv ⟨.obj ms, stk⟩ k = es.map conv ∧
      (getArrayBy conv ⟨.obj ms, stk⟩ k).length = es.length) ∧
    (List.lookup k ms = none → getArrayBy conv ⟨.obj ms, stk⟩ k = []) ∧
    (∀ v, List.lookup k ms = some v → (∀ es, v ≠ .arr es) →
      getArrayBy conv ⟨.obj ms, stk⟩ k = []) ∧
    (∀ v : JValue, v.isNum = false →
      convInt64 v = 0 ∧ convUInt32 v = 0 ∧ convUInt64 v = 0 ∧
      convDouble v = 0 ∧ convFloat v = 0) ∧
    (∀ v : JValue, v.isStr = false → convString v = "") ∧
    (∀ v : JValue, v.isBool = false → convBool v = false) := by
  refine ⟨rfl, ?_, ?_, ?_, ?_, ?_, ?_⟩
  · intro es h
    refine ⟨by simp [getArrayBy, h], by simp [getArrayBy, h]⟩
  · intro h
    simp [getArrayBy, h]
  · intro v h hne
    cases v with
    | arr es => exact absurd rfl (hne es)
    | null => simp [getArrayBy, h]
    | bool b => simp [getArrayBy, h]
    | num n => simp [getArrayBy, h]
    | str s => simp [getArrayBy, h]
    | obj ms2 => simp [getArrayBy, h]
  · intro v h
    cases v <;> simp_all [JValue.isNum, convInt64, convUInt32, convUInt64,
      convDouble, convFloat]
  · intro v h
    cases v <;> simp_all [JValue.isStr, convString]
  · intro v h
    cases v <;> simp_all [JValue.isBool, convBool]

/-- Witness for C9 amended: a concrete mixed array keeps its length, with the
string read back and the non-number element degraded to zero. -/
theorem c9_amended_witness :
    getArrayInt64 ⟨.obj [("k", .arr [.num (.int 5), .str "z"])], []⟩ "k" =
      [5, 0] ∧ convInt64 (.str "z") = 0 := by
  have h := (c9_amended convInt64 [("k", .arr [.num (.int 5), .str "z"])]
      [] [] "k").2.1 [.num (.int 5), .str "z"] rfl
  exact ⟨by simpa using h.1, rfl⟩

/-! ## Claim C10: begin with an already-present key duplicates the member
but targets the old value -/

/-- Claim C10: when `beginObject(key)` or `beginArray(key)` runs in
object-mode (an OBJECT frame, or the Document root on an empty stack) and
`key` is already a member of the active object, `AddMember` appends a second
member with the same key (a duplicate, not an upsert), while the pushed
frame's pointer — `&obj[key]` — designates the FIRST member with that key,
i.e. the old value; subsequent writes inside the block therefore hit the old
value. -/
theorem c10_duplicate_key :
    (∀ (s : JState) (fr : Frame) (rest : List Frame)
        (dms ms : List (String × JValue)) (k : String) (vOld : JValue),
      s.document = .obj dms →
      s.stack = fr :: rest → fr.isArr = false →
      resolve fr.path s.document = some (.obj ms) →
      List.lookup k ms = some vOld →
      (∃ s', beginObject s (some k) = some s' ∧
        s'.stack = ⟨fr.path ++ [.field k], false, k⟩ :: s.stack ∧
        resolve fr.path s'.document = some (.obj (ms ++ [(k, .obj [])])) ∧
        resolve (fr.path ++ [.field k]) s'.document = some vOld) ∧
      (∃ s', beginArray s (some k) = some s' ∧
        s'.stack = ⟨fr.path ++ [.field k], true, k⟩ :: s.stack ∧
        resolve fr.path s'.document = some (.obj (ms ++ [(k, .arr [])])) ∧
        resolve (fr.path ++ [.field k]) s'.document = some vOld)) ∧
    (∀ (ms : List (String × JValue)) (k : String) (vOld : JValue),
      List.lookup k ms = some vOld →
      beginObject ⟨.obj ms, []⟩ (some k) =
        some ⟨.obj (ms ++ [(k, .obj [])]), [⟨[.field k], false, k⟩]⟩ ∧
      beginArray ⟨.obj ms, []⟩ (some k) =
        some ⟨.obj (ms ++ [(k, .arr [])]), [⟨[.field k], true, k⟩]⟩ ∧
      List.lookup k (ms ++ [(k, .obj [])]) = some vOld ∧
      List.lookup k (ms ++ [(k, .arr [])]) = some vOld) := by
  constructor
  · intro s fr rest dms ms k vOld hdoc hstk hfr hres hlook
    obtain ⟨d, stk⟩ := s
    simp only at hdoc hstk hres
    subst hdoc
    subst hstk
    constructor
    · obtain ⟨d', hup, hres'⟩ :=
        updateAt_of_resolve (fun _ => .obj (ms ++ [(k, .obj [])])) hres
      refine ⟨⟨d', ⟨fr.path ++ [.field k], false, k⟩ :: fr :: rest⟩, ?_,
        rfl, hres', ?_⟩
      · simp [beginObject, ensureObject, hres, hfr, hup]
      · rw [resolve_append, hres']
        simp [resolve, lookup_append_left _ hlook]
    · obtain ⟨d', hup, hres'⟩ :=
        updateAt_of_resolve (fun _ => .obj (ms ++ [(k, .arr [])])) hres
      refine ⟨⟨d', ⟨fr.path ++ [.field k], true, k⟩ :: fr :: rest⟩, ?_,
        rfl, hres', ?_⟩
      · simp [beginArray, ensureObject, hres, hfr, hup]
      · rw [resolve_append, hres']
        simp [resolve, lookup_append_left _ hlook]
  · intro ms k vOld hlook
    refine ⟨rfl, rfl, lookup_append_left _ hlook, lookup_append_left _ hlook⟩

/-- Witness for C10 at a concrete document whose active object already binds
"k". -/
theorem c10_duplicate_key_witness :
    beginObject ⟨.obj [("k", .str "old")], []⟩ (some "k") =
      some ⟨.obj [("k", .str "old"), ("k", .obj [])],
        [⟨[.field "k"], false, "k"⟩]⟩ ∧
    List.lookup "k" [("k", (JValue.str "old")), ("k", JValue.obj [])] =
      some (JValue.str "old") := by
  have h := c10_duplicate_key.2 [("k", .str "old")] "k" (.str "old") rfl
  exact ⟨h.1, h.2.2.1⟩

/-! ## Round-trip helper lemmas -/

theorem wrapInt64_eq_self {v : Int} (h1 : -9223372036854775808 ≤ v)
    (h2 : v < 9223372036854775808) : wrapInt64 v = v := by
  unfold wrapInt64
  omega

/-- Writing one field at top level (empty stack): root upsert. -/
theorem writeField_root (ms : List (String × JValue)) (k : String)
    (f : FieldVal) :
    writeField ⟨.obj ms, []⟩ k f =
      some ⟨.obj (setMember ms k f.toJValue), []⟩ := by
  cases f <;> rfl

theorem saveFields_from_obj (fields : List (String × FieldVal)) :
    ∀ ms, List.foldlM (fun s kf => writeField s kf.1 kf.2)
        (⟨.obj ms, []⟩ : JState) fields =
      some ⟨.obj (fields.foldl
        (fun acc kf => setMember acc kf.1 kf.2.toJValue) ms), []⟩ := by
  induction fields with
  | nil => intro ms; rfl
  | cons kf rest ih =>
      intro ms
      rw [List.foldlM_cons, writeField_root]
      simpa [List.foldl_cons] using ih (setMember ms kf.1 kf.2.toJValue)

theorem foldl_setMember_of_disjoint :
    ∀ (fields : List (String × FieldVal)) (ms : List (String × JValue)),
      (fields.map Prod.fst).Nodup →
      (∀ k ∈ fields.map Prod.fst, k ∉ ms.map Prod.fst) →
      fields.foldl (fun acc kf => setMember acc kf.1 kf.2.toJValue) ms =
        ms ++ fields.map (fun kf => (kf.1, kf.2.toJValue)) := by
  intro fields
  induction fields with
  | nil => intro ms _ _; simp
  | cons kf rest ih =>
      intro ms hnd hdisj
      obtain ⟨k, f⟩ := kf
      simp only [List.map_cons, List.nodup_cons] at hnd
      rw [List.foldl_cons]
      rw [setMember_of_not_mem _ (hdisj k (by simp))]
      rw [ih (ms ++ [(k, f.toJValue)]) hnd.2 ?_]
      · simp
      · intro k' hk'
        simp only [List.map_append, List.map_cons, List.map_nil,
          List.mem_append, List.mem_singleton, List.mem_cons]
        push_neg
        refine ⟨hdisj k' (by simp [hk']), ?_, by simp⟩
        intro he
        subst he
        exact hnd.1 hk'

theorem lookup_fieldsMap :
    ∀ {fields : List (String × FieldVal)},
      (fields.map Prod.fst).Nodup →
      ∀ {k : String} {f : FieldVal}, (k, f) ∈ fields →
      List.lookup k (fields.map fun kf => (kf.1, kf.2.toJValue)) =
        some f.toJValue := by
  intro fields
  induction fields with
  | nil => intro _ k f hmem; cases hmem
  | cons hd rest ih =>
      intro hnd k f hmem
      obtain ⟨k', f'⟩ := hd
      simp only [List.map_cons, List.nodup_cons] at hnd
      rcases List.mem_cons.mp hmem with heq | htl
      · obtain ⟨rfl, rfl⟩ : k = k' ∧ f = f' := Prod.mk.injEq .. ▸ heq
        exact lookup_cons_self _ _ _
      · have hk : k ≠ k' := by
          intro he
          subst he
          exact hnd.1 (List.mem_map_of_mem Prod.fst htl)
        rw [List.map_cons, lookup_cons_ne _ _ hk]
        exact ih hnd.2 htl

/-- Reading a field back from an object root that binds its key to exactly
the JSON value its setter stored reproduces the field. -/
theorem readField_eq {M : List (String × JValue)} {k : String}
    {f : FieldVal} (hval : f.valid)
    (hlook : List.lookup k M = some f.toJValue) :
    readField ⟨.obj M, []⟩ k f = f := by
  cases f with
  | vstr v =>
      simp only [FieldVal.toJValue] at hlook
      simp [readField, getString, hlook]
  | vi64 v =>
      simp only [FieldVal.toJValue] at hlook
      obtain ⟨h1, h2⟩ := hval
      have hflag : JNum.isInt64 (.int v) = true := by
        simp [JNum.isInt64]
        omega
      have hwrap : wrapInt64 v = v := wrapInt64_eq_self h1 h2
      simp [readField, getInt64, hlook, hflag, JNum.i64, hwrap]
  | vu32 v =>
      simp only [FieldVal.toJValue] at hlook
      obtain ⟨h1, h2⟩ := hval
      have hflag : JNum.isUint32 (.int v) = true := by
        simp [JNum.isUint32]
        omega
      simp [readField, getUInt32, hlook, hflag, JNum.u64, h1]
  | vu64 v =>
      simp only [FieldVal.toJValue] at hlook
      obtain ⟨h1, h2⟩ := hval
      have hflag : JNum.isUint64 (.int v) = true := by
        simp [JNum.isUint64]
        omega
      simp [readField, getUInt64, hlook, hflag, JNum.u64, h1]
  | vdbl q =>
      simp only [FieldVal.toJValue] at hlook
      simp [readField, getDouble, hlook, JNum.toDbl]
  | vflt q =>
      simp only [FieldVal.toJValue] at hlook
      simp [readField, getFloat, getDouble, hlook, JNum.toDbl]
  | vbool b =>
      simp only [FieldVal.toJValue] at hlook
      simp [readField, getBool, hlook]
  | vastr vs =>
      simp only [FieldVal.toJValue] at hlook
      have hconv : ∀ x ∈ vs, (convString ∘ toValString) x = id x :=
        fun x _ => rfl
      simp only [readField, getArrayString, getArrayBy, hlook, List.map_map]
      rw [List.map_congr_left hconv, List.map_id]
  | vai64 vs =>
      simp only [FieldVal.toJValue] at hlook
      have hconv : ∀ x ∈ vs, (convInt64 ∘ toValInt64) x = id x := by
        intro x hx
        simp only [Function.comp, convInt64, toValInt64, JNum.i64, id]
        exact wrapInt64_eq_self (hval x hx).1 (hval x hx).2
      simp only [readField, getArrayInt64, getArrayBy, hlook, List.map_map]
      rw [List.map_congr_left hconv, List.map_id]
  | vau32 vs =>
      simp only [FieldVal.toJValue] at hlook
      have hconv : ∀ x ∈ vs, (convUInt32 ∘ toValUInt32) x = id x := by
        intro x hx
        have h1 := (hval x hx).1
        have h2 := (hval x hx).2
        simp only [Function.comp, convUInt32, toValUInt32, JNum.u64, id,
          if_pos h1]
        omega
      simp only [readField, getArrayUInt32, getArrayBy, hlook, List.map_map]
      rw [List.map_congr_left hconv, List.map_id]
  | vau64 vs =>
      simp only [FieldVal.toJValue] at hlook
      have hconv : ∀ x ∈ vs, (convUInt64 ∘ toValUInt64) x = id x := by
        intro x hx
        simp only [Function.comp, convUInt64, toValUInt64, JNum.u64, id,
          if_pos (hval x hx).1]
      simp only [readField, getArrayUInt64, getArrayBy, hlook, List.map_map]
      rw [List.map_congr_left hconv, List.map_id]
  | vadbl qs =>
      simp only [FieldVal.toJValue] at hlook
      have hconv : ∀ x ∈ qs, (convDouble ∘ toValDouble) x = id x :=
        fun x _ => rfl
      simp only [readField, getArrayDouble, getArrayBy, hlook, List.map_map]
      rw [List.map_congr_left hconv, List.map_id]
  | vaflt qs =>
      simp only [FieldVal.toJValue] at hlook
      have hconv : ∀ x ∈ qs, (convFloat ∘ toValFloat) x = id x :=
        fun x _ => rfl
      simp only [readField, getArrayFloat, getArrayBy, hlook, List.map_map]
      rw [List.map_congr_left hconv, List.map_id]
  | vabool bs =>
      simp only [FieldVal.toJValue] at hlook
      have hconv : ∀ x ∈ bs, (convBool ∘ toValBool) x = id x :=
        fun x _ => rfl
      simp only [readField, getArrayBool, getArrayBy, hlook, List.map_map]
      rw [List.map_congr_left hconv, List.map_id]

/-! ## Claim C1: encode/decode round trip -/

/-- Claim C1: for every record value built from the seven primitive kinds
and homogeneous arrays thereof (distinct field names, machine-representable
values), encoding via the save callback and `documentToString` and then
decoding the text into a fresh instance via `parseFromString` and the load
callback reproduces every field — provided the external JSON library
satisfies its contract `parse (serialize d) = some d`. -/
theorem c1_roundtrip {Text : Type} (serialize : JValue → Text)
    (parse : Text → Option JValue)
    (hcodec : ∀ d, parse (serialize d) = some d)
    (fields : List (String × FieldVal))
    (hnd : (fields.map Prod.fst).Nodup)
    (hval : ∀ kf ∈ fields, FieldVal.valid kf.2) :
    ∃ st, saveFields fields = some st ∧
      loadFields (fromJsonState parse freshState (toJsonText serialize st))
        fields = fields := by
  have hsave : saveFields fields =
      some ⟨.obj (fields.map fun kf => (kf.1, kf.2.toJValue)), []⟩ := by
    show List.foldlM (fun s kf => writeField s kf.1 kf.2)
        (⟨.obj [], []⟩ : JState) fields = _
    rw [saveFields_from_obj fields []]
    rw [foldl_setMember_of_disjoint fields [] hnd (by simp)]
    simp
  refine ⟨_, hsave, ?_⟩
  have hparse : fromJsonState parse freshState (toJsonText serialize
      ⟨.obj (fields.map fun kf => (kf.1, kf.2.toJValue)), []⟩) =
      ⟨.obj (fields.map fun kf => (kf.1, kf.2.toJValue)), []⟩ := by
    simp [fromJsonState, toJsonText, parseFromString, hcodec]
  rw [hparse]
  have hfield : ∀ kf ∈ fields,
      (kf.1, readField ⟨.obj (fields.map fun kf => (kf.1, kf.2.toJValue)),
        []⟩ kf.1 kf.2) = id kf := by
    intro kf hmem
    obtain ⟨k, f⟩ := kf
    have hl := lookup_fieldsMap hnd hmem
    have hv := hval _ hmem
    simp [readField_eq hv hl]
  calc loadFields _ fields = fields.map id := List.map_congr_left hfield
    _ = fields := List.map_id fields

/-- Witness for C1: a concrete record with a string, an integer and a string
array, with the codec instantiated by the identity on document trees. -/
theorem c1_roundtrip_witness :
    ∃ st, saveFields [("name", .vstr "Alice"), ("age", .vi64 25),
        ("tags", .vastr ["x", "y"])] = some st ∧
      loadFields (fromJsonState some freshState (toJsonText id st))
        [("name", .vstr "Alice"), ("age", .vi64 25),
         ("tags", .vastr ["x", "y"])] =
        [("name", .vstr "Alice"), ("age", .vi64 25),
         ("tags", .vastr ["x", "y"])] := by
  refine c1_roundtrip id some (fun d => rfl) _ (by decide) ?_
  intro kf hkf
  fin_cases hkf <;> norm_num [FieldVal.valid]

end Jsonable
